import Mathlib

/-!
Shallow embedding of the routing/path-computation engine of the
networknavigator repository (the `findPathBFS` helper and the
`runSimulation` callback of the network context module).

Conventions of the embedding:
* reactflow nodes are flattened to `NodeRec` (the engine only reads
  `node.id` and `node.data.{battery, queueSize, isFailed}`);
* reactflow edges are flattened to `EdgeRec` (the engine only reads
  `edge.source`, `edge.target` and `edge.data.{latency, bandwidth}`;
  every edge the application creates carries a `data` record);
* JS numbers are modelled as rationals;
* a `null` source/target id is modelled as the empty string, which is
  exactly how the JS truthiness guards (`!sourceId`) treat both;
* the `Math.random()` draws are modelled by an explicit `Rng` record of
  draw functions, so every operation is a pure function of its inputs
  and of the random draws;
* the JS `Infinity` metric values are modelled by `MetricVal.inf`;
* the `while` loop of the BFS is modelled with explicit fuel
  `allNodes.length + 1`; each loop iteration pops one queue entry, the
  queue receives at most one entry per node id ever marked visited, and
  visited ids are node ids, so this fuel is never exhausted before the
  loop exits on its own.
-/

namespace NetworkNavigator

/-- Node of the network graph (reactflow node flattened). -/
structure NodeRec where
  id : String
  battery : ℚ
  queueSize : ℚ
  isFailed : Bool
deriving DecidableEq, Repr

/-- Edge of the network graph (reactflow edge flattened); strictly
directed from `source` to `target`. -/
structure EdgeRec where
  source : String
  target : String
  latency : ℚ
  bandwidth : ℚ
deriving DecidableEq, Repr

/-- The algorithm selector of `SimulationParams`. -/
inductive Algorithm
  | dijkstra
  | bellmanFord
  | adaptive
  | compare
deriving DecidableEq, Repr

/-- The adaptive weights record `{alpha, beta, gamma}`. -/
structure Weights where
  alpha : ℚ
  beta : ℚ
  gamma : ℚ
deriving DecidableEq, Repr

/-- Simulation parameters; a `null` endpoint id is modelled as `""`. -/
structure SimulationParams where
  algorithm : Algorithm
  sourceNode : String
  targetNode : String
  weights : Weights
deriving DecidableEq, Repr

/-- Explicit model of every `Math.random()` draw the engine makes:
`battDraw i` stands for `Math.floor(Math.random()*5)` and `queueDraw i`
for `Math.floor(Math.random()*6)` when perceiving intermediate node `i`;
the four jitter draws stand for the `Math.random()` calls of the metrics
synthesis of each algorithm run. -/
structure Rng where
  battDraw : String → ℕ
  queueDraw : String → ℕ
  energyJitter : Algorithm → ℚ
  latencyJitter : Algorithm → ℚ
  deliveryJitter : Algorithm → ℚ
  lifetimeJitter : Algorithm → ℚ

/-- A metric value: a finite number or the JS `Infinity`. -/
inductive MetricVal
  | val : ℚ → MetricVal
  | inf
deriving DecidableEq, Repr

/-- The four synthesized performance metrics. -/
structure PerformanceMetricsData where
  energyConsumption : MetricVal
  averageLatency : MetricVal
  deliveryRatio : MetricVal
  networkLifetime : MetricVal
deriving DecidableEq, Repr

/-- One simulation result (one entry per algorithm run). -/
structure SimulationResult where
  algorithm : Algorithm
  path : List String
  metrics : PerformanceMetricsData
deriving DecidableEq, Repr

/-- The `nodes.find(n => n.id === i)` lookup. -/
def findNode (nodes : List NodeRec) (i : String) : Option NodeRec :=
  nodes.find? (fun n => n.id == i)

/-- The `!!nodes.find(n => n.id === i)?.data.isFailed` truthiness: a
missing node reads as not failed (`undefined` is falsy). -/
def nodeLookupFailed (nodes : List NodeRec) (i : String) : Bool :=
  match findNode nodes i with
  | some n => n.isFailed
  | none => false

/-- `allNodes.filter(node => !node.data.isFailed)`. -/
def validNodes (allNodes : List NodeRec) : List NodeRec :=
  allNodes.filter (fun n => !n.isFailed)

/-- The ids of the non-failed nodes (the `validNodeIds` set). -/
def validNodeIds (allNodes : List NodeRec) : List String :=
  (validNodes allNodes).map (fun n => n.id)

/-- The adjacency list entry of node `a`: targets of edges leaving `a`
whose source and target nodes are both non-failed, in edge-list order
(strictly directed). -/
def adjOf (allNodes : List NodeRec) (allEdges : List EdgeRec) (a : String) : List String :=
  (allEdges.filter (fun e =>
    (validNodeIds allNodes).contains e.source
    && (validNodeIds allNodes).contains e.target
    && e.source == a)).map (fun e => e.target)

/-- The neighbor-processing `forEach` of one BFS iteration: each not yet
visited neighbor is marked visited and its extended path is appended to
the queue. -/
def pushNeighbors (currentPath : List String) :
    List String → List (List String) → List String → List (List String) × List String
  | [], queue, visited => (queue, visited)
  | nb :: rest, queue, visited =>
    if visited.contains nb then
      pushNeighbors currentPath rest queue visited
    else
      pushNeighbors currentPath rest (queue ++ [currentPath ++ [nb]]) (nb :: visited)

/-- The BFS `while (queue.length > 0)` loop, with explicit fuel. -/
def bfsLoop (adj : String → List String) (targetId : String) :
    ℕ → List (List String) → List String → List String
  | 0, _, _ => []
  | _ + 1, [], _ => []
  | fuel + 1, currentPath :: rest, visited =>
    if currentPath.getLastD "" == targetId then currentPath
    else
      let st := pushNeighbors currentPath (adj (currentPath.getLastD "")) rest visited
      bfsLoop adj targetId fuel st.1 st.2

/-- The `findPathBFS` helper: BFS pathfinding respecting failed nodes
and strict edge direction. -/
def findPathBFS (sourceId targetId : String)
    (allNodes : List NodeRec) (allEdges : List EdgeRec) : List String :=
  if sourceId = "" ∨ targetId = "" then []
  else if sourceId = targetId then [sourceId]
  else if nodeLookupFailed allNodes sourceId || nodeLookupFailed allNodes targetId then []
  else if !((validNodeIds allNodes).contains sourceId)
       || !((validNodeIds allNodes).contains targetId) then []
  else
    bfsLoop (adjOf allNodes allEdges) targetId (allNodes.length + 1) [[sourceId]] [sourceId]

/-- The edge predicate used by the candidate searches of
`runSimulation`: the edge goes `a → b` and the node lookups of both of
its endpoints read as not failed. -/
def edgeOk (nodes : List NodeRec) (a b : String) (e : EdgeRec) : Bool :=
  e.source == a && e.target == b
  && !nodeLookupFailed nodes e.source && !nodeLookupFailed nodes e.target

/-- The intermediate-node candidates: every node other than source and
target that is not failed, in node-list order. -/
def intermediateCandidates (sourceId targetId : String) (nodes : List NodeRec) : List NodeRec :=
  nodes.filter (fun n => n.id != sourceId && n.id != targetId && !n.isFailed)

/-- The perceived battery of an intermediate node: the stored battery
plus a random variance of `2 - battDraw ∈ [-2, 2]`, clamped to `[0, 100]`. -/
def perceivedBattery (rng : Rng) (n : NodeRec) : ℚ :=
  max 0 (min 100 (n.battery - (rng.battDraw n.id : ℚ) + 2))

/-- The perceived queue size of an intermediate node: the stored queue
size plus a random variance of `queueDraw - 3 ∈ [-3, 2]`, clamped to be
non-negative. -/
def perceivedQueueSize (rng : Rng) (n : NodeRec) : ℚ :=
  max 0 (n.queueSize + (rng.queueDraw n.id : ℚ) - 3)

/-- The adaptive total cost of a 2-hop candidate through `n` via edges
`e1` and `e2`, using the perceived battery and queue size. -/
def twoHopCost (w : Weights) (rng : Rng) (n : NodeRec) (e1 e2 : EdgeRec) : ℚ :=
  w.alpha * (e1.latency + e2.latency)
  + w.beta * (100 - perceivedBattery rng n)
  + w.gamma * perceivedQueueSize rng n

/-- State of the adaptive minimum search: the best cost so far (`none`
is the initial `Infinity`) and the best path so far. -/
abbrev AdaptiveAcc := Option ℚ × List String

/-- One iteration of the adaptive 2-hop loop: if both hop edges are
found, the candidate replaces the best on a strictly smaller cost. -/
def adaptiveStep (sourceId targetId : String) (nodes : List NodeRec) (edges : List EdgeRec)
    (w : Weights) (rng : Rng) (acc : AdaptiveAcc) (iNode : NodeRec) : AdaptiveAcc :=
  match edges.find? (edgeOk nodes sourceId iNode.id),
        edges.find? (edgeOk nodes iNode.id targetId) with
  | some e1, some e2 =>
    let totalCost := twoHopCost w rng iNode e1 e2
    match acc with
    | (none, _) => (some totalCost, [sourceId, iNode.id, targetId])
    | (some m, best) =>
      if totalCost < m then (some totalCost, [sourceId, iNode.id, targetId])
      else (some m, best)
  | _, _ => acc

/-- The initial state of the adaptive search: the direct-edge candidate
with cost `latency * alpha` (taken only when the source node exists, as
in the reference code), else `Infinity` and the empty path. -/
def adaptiveInit (sourceId targetId : String) (nodes : List NodeRec) (edges : List EdgeRec)
    (w : Weights) : AdaptiveAcc :=
  match edges.find? (edgeOk nodes sourceId targetId), findNode nodes sourceId with
  | some e, some _ => (some (e.latency * w.alpha), [sourceId, targetId])
  | _, _ => (none, [])

/-- The adaptive path selection of `runSimulation`: minimum-cost among
the direct candidate and all 2-hop candidates, falling back to BFS when
no candidate was found. -/
def adaptiveSearch (sourceId targetId : String) (nodes : List NodeRec) (edges : List EdgeRec)
    (w : Weights) (rng : Rng) : List String :=
  let best := ((intermediateCandidates sourceId targetId nodes).foldl
    (adaptiveStep sourceId targetId nodes edges w rng)
    (adaptiveInit sourceId targetId nodes edges w)).2
  if best = [] ∧ sourceId ≠ targetId then findPathBFS sourceId targetId nodes edges
  else best

/-- The 2-hop presence check of the non-adaptive branch. -/
def twoHopExists (sourceId targetId : String) (nodes : List NodeRec) (edges : List EdgeRec)
    (iNode : NodeRec) : Bool :=
  (edges.any (edgeOk nodes sourceId iNode.id)) && (edges.any (edgeOk nodes iNode.id targetId))

/-- The dijkstra / bellman-ford path selection of `runSimulation`:
direct edge if present, else the first 2-hop candidate in node-list
order, else the BFS fallback. -/
def nonAdaptiveSearch (sourceId targetId : String) (nodes : List NodeRec)
    (edges : List EdgeRec) : List String :=
  match edges.find? (edgeOk nodes sourceId targetId) with
  | some _ => [sourceId, targetId]
  | none =>
    match (intermediateCandidates sourceId targetId nodes).find?
        (twoHopExists sourceId targetId nodes edges) with
    | some iNode => [sourceId, iNode.id, targetId]
    | none =>
      if sourceId ≠ targetId then findPathBFS sourceId targetId nodes edges else []

/-- The four per-algorithm metric factors. -/
structure Factors where
  energy : ℚ
  latency : ℚ
  delivery : ℚ
  lifetime : ℚ
deriving DecidableEq, Repr

/-- The latency read for one consecutive path pair during adaptive
metrics synthesis; a missing edge, and also a zero latency (the JS
`edge?.data?.latency || 30` treats `0` as falsy), read as `30`. -/
def latencyOr30 (edges : List EdgeRec) (a b : String) : ℚ :=
  match edges.find? (fun e => e.source == a && e.target == b) with
  | some e => if e.latency = 0 then 30 else e.latency
  | none => 30

/-- The summed latency of the consecutive pairs of a path (`0` when the
path has fewer than two entries). -/
def pathLatencySum (edges : List EdgeRec) (path : List String) : ℚ :=
  ((path.zip path.tail).map (fun p => latencyOr30 edges p.1 p.2)).sum

/-- The metric factors of one algorithm run: fixed constants for
dijkstra and bellman-ford, weight- and latency-derived factors for
adaptive. (`compare` never reaches this point: it is expanded into the
three base algorithms first.) -/
def factorsFor (algo : Algorithm) (w : Weights) (edges : List EdgeRec)
    (path : List String) : Factors :=
  match algo with
  | .dijkstra => { energy := 11/10, latency := 8/10, delivery := 95/100, lifetime := 9/10 }
  | .bellmanFord => { energy := 1, latency := 12/10, delivery := 9/10, lifetime := 85/100 }
  | .adaptive =>
    let avgPathLatency := pathLatencySum edges path / max 1 ((path.length : ℚ) - 1)
    { energy := 1 - w.beta * (2/10) + w.gamma * (1/10)
      latency := max (1/10) (avgPathLatency / 20)
      delivery := min 1 (9/10 + w.alpha * (5/100) - w.gamma * (1/10))
      lifetime := 85/100 + w.beta * (25/100) }
  | .compare => { energy := 1, latency := 1, delivery := 1, lifetime := 1 }

/-- The metrics synthesis of one algorithm run: infinite energy and
latency with zero delivery and lifetime when no path exists between
distinct endpoints, trivial constants for a zero-hop path, and jittered
factor-scaled values otherwise. -/
def synthMetrics (algo : Algorithm) (w : Weights) (edges : List EdgeRec) (rng : Rng)
    (sourceId targetId : String) (path : List String) : PerformanceMetricsData :=
  let f := factorsFor algo w edges path
  let pathLength : ℕ := path.length - 1
  if path.length = 0 ∧ sourceId ≠ targetId then
    { energyConsumption := .inf, averageLatency := .inf
      deliveryRatio := .val 0, networkLifetime := .val 0 }
  else if pathLength = 0 then
    { energyConsumption := .val 0, averageLatency := .val 0
      deliveryRatio := .val 1, networkLifetime := .val 500 }
  else
    { energyConsumption :=
        .val (max 5 ((10 * (pathLength : ℚ) + rng.energyJitter algo * 20) * f.energy))
      averageLatency :=
        .val (max 5 ((15 * (pathLength : ℚ) + rng.latencyJitter algo * 10) * f.latency))
      deliveryRatio :=
        .val (min 1 (max 0 ((85/100 + rng.deliveryJitter algo * (15/100)) * f.delivery)))
      networkLifetime :=
        .val (max 10 (((⌊(300 + rng.lifetimeJitter algo * 100) * f.lifetime
          / max 1 (pathLength : ℚ)⌋ : ℤ) : ℚ))) }

/-- One algorithm run of the simulation: path selection followed by
metrics synthesis. -/
def runAlgo (sourceId targetId : String) (nodes : List NodeRec) (edges : List EdgeRec)
    (w : Weights) (rng : Rng) (algo : Algorithm) : SimulationResult :=
  let path :=
    if algo = .adaptive then adaptiveSearch sourceId targetId nodes edges w rng
    else nonAdaptiveSearch sourceId targetId nodes edges
  { algorithm := algo, path := path
    metrics := synthMetrics algo w edges rng sourceId targetId path }

/-- The validation errors of `runSimulation`, following the spec's
taxonomy. The reference code reports `missingEndpoints`,
`endpointFailed` and `weightsNotNormalized` (as destructive toasts with
no results); it has no code path producing `degenerateEndpoints`, which
is kept here only so that the spec's taxonomy is statable. -/
inductive SimError
  | missingEndpoints
  | endpointFailed
  | degenerateEndpoints
  | weightsNotNormalized
deriving DecidableEq, Repr

/-- The metrics of the source-equals-target short-circuit result. -/
def trivialSelfMetrics : PerformanceMetricsData :=
  { energyConsumption := .val 0, averageLatency := .val 0
    deliveryRatio := .val 1, networkLifetime := .val 500 }

/-- The results of the source-equals-target short-circuit: one trivial
result per algorithm (three for `compare`). -/
def selfPathResults (algo : Algorithm) (sourceId : String) : List SimulationResult :=
  match algo with
  | .compare =>
    [{ algorithm := .dijkstra, path := [sourceId], metrics := trivialSelfMetrics },
     { algorithm := .bellmanFord, path := [sourceId], metrics := trivialSelfMetrics },
     { algorithm := .adaptive, path := [sourceId], metrics := trivialSelfMetrics }]
  | a => [{ algorithm := a, path := [sourceId], metrics := trivialSelfMetrics }]

/-- The expansion of the algorithm selector into the algorithms to run. -/
def algorithmsToRun : Algorithm → List Algorithm
  | .compare => [.dijkstra, .bellmanFord, .adaptive]
  | a => [a]

/-- The sum `alpha + beta + gamma` of the weights record
(`Object.values(weights).reduce(...)`). -/
def weightsTotal (w : Weights) : ℚ :=
  w.alpha + w.beta + w.gamma

/-- The `runSimulation` callback as a pure function of the graph
snapshot, the parameters and the random draws: a validation error or
one result per algorithm run. -/
def runSimulation (nodes : List NodeRec) (edges : List EdgeRec)
    (params : SimulationParams) (rng : Rng) : Except SimError (List SimulationResult) :=
  let sourceId := params.sourceNode
  let targetId := params.targetNode
  if sourceId = "" ∨ targetId = "" then .error .missingEndpoints
  else if nodeLookupFailed nodes sourceId then .error .endpointFailed
  else if nodeLookupFailed nodes targetId then .error .endpointFailed
  else if sourceId = targetId ∧ 1 ≤ (validNodes nodes).length then
    .ok (selfPathResults params.algorithm sourceId)
  else if (params.algorithm = .adaptive ∨ params.algorithm = .compare)
      ∧ 1/1000 < |weightsTotal params.weights - 1| then
    .error .weightsNotNormalized
  else
    .ok ((algorithmsToRun params.algorithm).map
      (runAlgo sourceId targetId nodes edges params.weights rng))

/-! ### Propositional view of the valid (non-failed) subgraph -/

/-- Some non-failed node bears the id `x`. -/
def validId (nodes : List NodeRec) (x : String) : Prop :=
  ∃ n ∈ nodes, n.id = x ∧ n.isFailed = false

/-- Some edge is directed `a → b` and the source and target nodes of
that edge are both non-failed: the relation the BFS adjacency encodes. -/
def stepRel (nodes : List NodeRec) (edges : List EdgeRec) (a b : String) : Prop :=
  ∃ e ∈ edges, e.source = a ∧ e.target = b ∧ validId nodes a ∧ validId nodes b

/-- Reachability over the directed adjacency of the valid subgraph. -/
def reachable (nodes : List NodeRec) (edges : List EdgeRec) (a b : String) : Prop :=
  Relation.ReflTransGen (stepRel nodes edges) a b

lemma contains_validNodeIds {nodes : List NodeRec} {x : String} :
    (validNodeIds nodes).contains x = true ↔ validId nodes x := by
  rw [show (validNodeIds nodes).contains x = List.elem x (validNodeIds nodes) from rfl,
    List.elem_iff]
  simp only [validNodeIds, validNodes, validId, List.mem_map, List.mem_filter,
    Bool.not_eq_true']
  constructor
  · rintro ⟨n, ⟨hn, hf⟩, hid⟩
    exact ⟨n, hn, hid, hf⟩
  · rintro ⟨n, hn, hid, hf⟩
    exact ⟨n, ⟨hn, hf⟩, hid⟩

lemma mem_adjOf {nodes : List NodeRec} {edges : List EdgeRec} {a b : String} :
    b ∈ adjOf nodes edges a ↔ stepRel nodes edges a b := by
  simp only [adjOf, List.mem_map, List.mem_filter, Bool.and_eq_true, beq_iff_eq, stepRel]
  constructor
  · rintro ⟨e, ⟨he, ⟨⟨hvs, hvt⟩, hsrc⟩⟩, htgt⟩
    exact ⟨e, he, hsrc, htgt, hsrc ▸ contains_validNodeIds.mp hvs,
      htgt ▸ contains_validNodeIds.mp hvt⟩
  · rintro ⟨e, he, hsrc, htgt, hva, hvb⟩
    exact ⟨e, ⟨he, ⟨⟨contains_validNodeIds.mpr (hsrc ▸ hva),
      contains_validNodeIds.mpr (htgt ▸ hvb)⟩, hsrc⟩⟩, htgt⟩

/-! ### Invariants of the BFS loop -/

/-- A well-formed queued path: non-empty, starting at the source,
without repeated ids, every consecutive pair joined by a valid edge. -/
def pathOk (s : String) (nodes : List NodeRec) (edges : List EdgeRec)
    (p : List String) : Prop :=
  p ≠ [] ∧ p.head? = some s ∧ p.Nodup ∧ p.Chain' (stepRel nodes edges)

/-- Invariant of the loop state: every queued path is well formed and
all of its ids are marked visited. -/
def queueInv (s : String) (nodes : List NodeRec) (edges : List EdgeRec)
    (queue : List (List String)) (visited : List String) : Prop :=
  ∀ p ∈ queue, pathOk s nodes edges p ∧ ∀ x ∈ p, x ∈ visited

lemma queueInv_mono {s : String} {nodes : List NodeRec} {edges : List EdgeRec}
    {queue : List (List String)} {visited visited' : List String}
    (hsub : ∀ x ∈ visited, x ∈ visited')
    (h : queueInv s nodes edges queue visited) :
    queueInv s nodes edges queue visited' :=
  fun p hp => ⟨(h p hp).1, fun x hx => hsub x ((h p hp).2 x hx)⟩

lemma getLast?_of_ne_nil {p : List String} (h : p ≠ []) :
    p.getLast? = some (p.getLastD "") := by
  cases p with
  | nil => exact absurd rfl h
  | cons a l => simp [List.getLastD_eq_getLast?, List.getLast?_cons]

lemma pushNeighbors_cons (cp : List String) (nb : String) (rest : List String)
    (queue : List (List String)) (visited : List String) :
    pushNeighbors cp (nb :: rest) queue visited =
      if visited.contains nb then pushNeighbors cp rest queue visited
      else pushNeighbors cp rest (queue ++ [cp ++ [nb]]) (nb :: visited) := rfl

lemma pushNeighbors_visited_sub (cp : List String) :
    ∀ (nbrs : List String) (queue : List (List String)) (visited : List String),
      ∀ x ∈ visited, x ∈ (pushNeighbors cp nbrs queue visited).2
  | [], _, _ => fun _ hx => hx
  | nb :: rest, queue, visited => by
    rw [pushNeighbors_cons]
    by_cases hnb : visited.contains nb = true
    · rw [if_pos hnb]
      exact pushNeighbors_visited_sub cp rest queue visited
    · rw [if_neg hnb]
      intro x hx
      exact pushNeighbors_visited_sub cp rest (queue ++ [cp ++ [nb]]) (nb :: visited) x
        (List.mem_cons_of_mem _ hx)

lemma pushNeighbors_inv {s : String} {nodes : List NodeRec} {edges : List EdgeRec}
    {cp : List String} (hp : pathOk s nodes edges cp) :
    ∀ (nbrs : List String) (queue : List (List String)) (visited : List String),
      (∀ nb ∈ nbrs, stepRel nodes edges (cp.getLastD "") nb) →
      queueInv s nodes edges queue visited →
      (∀ x ∈ cp, x ∈ visited) →
      queueInv s nodes edges (pushNeighbors cp nbrs queue visited).1
        (pushNeighbors cp nbrs queue visited).2
  | [], queue, visited => fun _ hq _ => by simpa [pushNeighbors] using hq
  | nb :: rest, queue, visited => by
    intro hnbrs hq hcp
    rw [pushNeighbors_cons]
    by_cases hnb : visited.contains nb = true
    · rw [if_pos hnb]
      exact pushNeighbors_inv hp rest queue visited
        (fun x hx => hnbrs x (List.mem_cons_of_mem _ hx)) hq hcp
    · rw [if_neg hnb]
      have hnbmem : nb ∉ visited := by
        intro hmem
        exact hnb (List.elem_iff.mpr hmem)
      obtain ⟨hne, hhead, hnodup, hchain⟩ := hp
      have hnbcp : nb ∉ cp := fun hmem => hnbmem (hcp nb hmem)
      have hpok : pathOk s nodes edges (cp ++ [nb]) := by
        refine ⟨by simp, ?_, ?_, ?_⟩
        · rw [List.head?_append, hhead]; rfl
        · exact List.nodup_append.mpr ⟨hnodup, List.nodup_singleton nb,
            fun x hx hx' => hnbcp ((List.mem_singleton.mp hx') ▸ hx)⟩
        · refine List.chain'_append.mpr ⟨hchain, List.chain'_singleton nb, ?_⟩
          intro x hx y hy
          rw [getLast?_of_ne_nil hne, Option.mem_def, Option.some_inj] at hx
          rw [List.head?_cons, Option.mem_def, Option.some_inj] at hy
          exact hx ▸ hy ▸ hnbrs nb (List.mem_cons_self _ _)
      refine pushNeighbors_inv ⟨hne, hhead, hnodup, hchain⟩ rest (queue ++ [cp ++ [nb]]) (nb :: visited)
        (fun x hx => hnbrs x (List.mem_cons_of_mem _ hx)) ?_ ?_
      · intro p hpmem
        rcases List.mem_append.mp hpmem with hm | hm
        · have := hq p hm
          exact ⟨this.1, fun x hx => List.mem_cons_of_mem _ (this.2 x hx)⟩
        · rw [List.mem_singleton.mp hm]
          refine ⟨hpok, fun x hx => ?_⟩
          rcases List.mem_append.mp hx with hm' | hm'
          · exact List.mem_cons_of_mem _ (hcp x hm')
          · rw [List.mem_singleton.mp hm']; exact List.mem_cons_self _ _
      · exact fun x hx => List.mem_cons_of_mem _ (hcp x hx)

lemma bfsLoop_cons (adj : String → List String) (targetId : String) (fuel : ℕ)
    (cp : List String) (rest : List (List String)) (visited : List String) :
    bfsLoop adj targetId (fuel + 1) (cp :: rest) visited =
      if cp.getLastD "" == targetId then cp
      else
        bfsLoop adj targetId fuel
          (pushNeighbors cp (adj (cp.getLastD "")) rest visited).1
          (pushNeighbors cp (adj (cp.getLastD "")) rest visited).2 := rfl

lemma bfsLoop_spec {s t : String} {nodes : List NodeRec} {edges : List EdgeRec} :
    ∀ (fuel : ℕ) (queue : List (List String)) (visited : List String),
      queueInv s nodes edges queue visited →
      bfsLoop (adjOf nodes edges) t fuel queue visited ≠ [] →
      pathOk s nodes edges (bfsLoop (adjOf nodes edges) t fuel queue visited) ∧
        (bfsLoop (adjOf nodes edges) t fuel queue visited).getLast? = some t
  | 0, _, _ => fun _ h => absurd rfl h
  | fuel + 1, [], _ => fun _ h => absurd rfl h
  | fuel + 1, cp :: rest, visited => by
    intro hinv hne
    rw [bfsLoop_cons] at hne ⊢
    have hcp := hinv cp (List.mem_cons_self _ _)
    by_cases hlast : (cp.getLastD "" == t) = true
    · rw [if_pos hlast]
      refine ⟨hcp.1, ?_⟩
      rw [getLast?_of_ne_nil hcp.1.1, Option.some_inj]
      exact beq_iff_eq.mp hlast
    · rw [if_neg hlast] at hne ⊢
      refine bfsLoop_spec fuel _ _ ?_ hne
      exact pushNeighbors_inv hcp.1 _ rest visited
        (fun nb hnb => mem_adjOf.mp hnb)
        (fun p hp => hinv p (List.mem_cons_of_mem _ hp)) hcp.2

/-- Structural properties of every non-empty BFS result: it starts at
the source, ends at the target, has no repeated id, and every
consecutive pair is joined by a valid directed edge. -/
lemma findPathBFS_spec {sourceId targetId : String} {nodes : List NodeRec}
    {edges : List EdgeRec}
    (h : findPathBFS sourceId targetId nodes edges ≠ []) :
    (findPathBFS sourceId targetId nodes edges).head? = some sourceId ∧
    (findPathBFS sourceId targetId nodes edges).getLast? = some targetId ∧
    (findPathBFS sourceId targetId nodes edges).Nodup ∧
    (findPathBFS sourceId targetId nodes edges).Chain' (stepRel nodes edges) := by
  unfold findPathBFS at h ⊢
  split_ifs at h ⊢ with h1 h2 h3 h4
  · exact absurd rfl h
  · subst h2
    exact ⟨rfl, rfl, List.nodup_singleton _, List.chain'_singleton _⟩
  · exact absurd rfl h
  · exact absurd rfl h
  · have hs := @bfsLoop_spec sourceId targetId nodes edges
      (nodes.length + 1) [[sourceId]] [sourceId] ?_ h
    · exact ⟨hs.1.2.1, hs.2, hs.1.2.2.1, hs.1.2.2.2⟩
    · intro p hp
      rw [List.mem_singleton.mp hp]
      exact ⟨⟨List.cons_ne_nil _ _, rfl, List.nodup_singleton _, List.chain'_singleton _⟩,
        fun x hx => by rw [List.mem_singleton.mp hx]; exact List.mem_cons_self _ _⟩

/-- A non-empty BFS result witnesses reachability of the target from
the source over the valid directed adjacency. -/
lemma reachable_of_findPathBFS_ne_nil {sourceId targetId : String}
    {nodes : List NodeRec} {edges : List EdgeRec}
    (h : findPathBFS sourceId targetId nodes edges ≠ []) :
    reachable nodes edges sourceId targetId := by
  obtain ⟨hhead, hlast, _, hchain⟩ := findPathBFS_spec h
  set p := findPathBFS sourceId targetId nodes edges with hp
  cases hq : p with
  | nil => exact absurd hq h
  | cons a l =>
    rw [hq] at hhead hlast hchain
    have ha : a = sourceId := by simpa using hhead
    subst ha
    refine List.relationReflTransGen_of_exists_chain l hchain ?_
    have := hlast
    rwa [List.getLast?_eq_getLast _ (List.cons_ne_nil _ _), Option.some_inj] at this

/-! ### The adaptive selection as a minimum over an explicit candidate list -/

/-- Strictly-less-than replacement step of a running minimum (ties keep
the earlier candidate; `none` is the initial infinite cost). -/
def minStep (acc : AdaptiveAcc) (c : ℚ × List String) : AdaptiveAcc :=
  match acc with
  | (none, _) => (some c.1, c.2)
  | (some m, best) => if c.1 < m then (some c.1, c.2) else (some m, best)

/-- The scored 2-hop candidate through `iNode`, when both hop edges are
found by the search. -/
def twoHopPair (sourceId targetId : String) (nodes : List NodeRec) (edges : List EdgeRec)
    (w : Weights) (rng : Rng) (iNode : NodeRec) : Option (ℚ × List String) :=
  match edges.find? (edgeOk nodes sourceId iNode.id),
        edges.find? (edgeOk nodes iNode.id targetId) with
  | some e1, some e2 => some (twoHopCost w rng iNode e1 e2, [sourceId, iNode.id, targetId])
  | _, _ => none

/-- The scored direct-edge candidate (empty when absent). -/
def directPairs (sourceId targetId : String) (nodes : List NodeRec) (edges : List EdgeRec)
    (w : Weights) : List (ℚ × List String) :=
  match edges.find? (edgeOk nodes sourceId targetId), findNode nodes sourceId with
  | some e, some _ => [(e.latency * w.alpha, [sourceId, targetId])]
  | _, _ => []

/-- All scored candidates the adaptive search evaluates: the direct
candidate followed by the 2-hop candidates in node-list order. -/
def candidatePairs (sourceId targetId : String) (nodes : List NodeRec) (edges : List EdgeRec)
    (w : Weights) (rng : Rng) : List (ℚ × List String) :=
  directPairs sourceId targetId nodes edges w
    ++ (intermediateCandidates sourceId targetId nodes).filterMap
      (twoHopPair sourceId targetId nodes edges w rng)

lemma adaptiveStep_eq_minStep (sourceId targetId : String) (nodes : List NodeRec)
    (edges : List EdgeRec) (w : Weights) (rng : Rng) (acc : AdaptiveAcc) (iNode : NodeRec) :
    adaptiveStep sourceId targetId nodes edges w rng acc iNode =
      match twoHopPair sourceId targetId nodes edges w rng iNode with
      | some c => minStep acc c
      | none => acc := by
  obtain ⟨mo, best⟩ := acc
  cases h1 : edges.find? (edgeOk nodes sourceId iNode.id) with
  | none => cases mo <;> simp [adaptiveStep, twoHopPair, h1]
  | some e1 =>
    cases h2 : edges.find? (edgeOk nodes iNode.id targetId) with
    | none => cases mo <;> simp [adaptiveStep, twoHopPair, h1, h2]
    | some e2 => cases mo <;> simp [adaptiveStep, twoHopPair, minStep, h1, h2]

lemma foldl_adaptiveStep (sourceId targetId : String) (nodes : List NodeRec)
    (edges : List EdgeRec) (w : Weights) (rng : Rng) :
    ∀ (l : List NodeRec) (acc : AdaptiveAcc),
      l.foldl (adaptiveStep sourceId targetId nodes edges w rng) acc =
        (l.filterMap (twoHopPair sourceId targetId nodes edges w rng)).foldl minStep acc
  | [], _ => rfl
  | iNode :: l, acc => by
    rw [List.foldl_cons, adaptiveStep_eq_minStep,
      foldl_adaptiveStep sourceId targetId nodes edges w rng l]
    cases h : twoHopPair sourceId targetId nodes edges w rng iNode with
    | none => rw [List.filterMap_cons_none h]
    | some c => rw [List.filterMap_cons_some h, List.foldl_cons]

lemma adaptiveInit_eq_foldl (sourceId targetId : String) (nodes : List NodeRec)
    (edges : List EdgeRec) (w : Weights) :
    adaptiveInit sourceId targetId nodes edges w =
      (directPairs sourceId targetId nodes edges w).foldl minStep (none, []) := by
  cases h1 : edges.find? (edgeOk nodes sourceId targetId) with
  | none => simp [adaptiveInit, directPairs, h1]
  | some e =>
    cases h2 : findNode nodes sourceId with
    | none => simp [adaptiveInit, directPairs, h1, h2]
    | some n => simp [adaptiveInit, directPairs, minStep, h1, h2]

/-- The adaptive search is the strictly-less-than minimum fold over the
explicit candidate list, with the BFS fallback when the resulting path
is empty. -/
lemma adaptiveSearch_eq_fold (sourceId targetId : String) (nodes : List NodeRec)
    (edges : List EdgeRec) (w : Weights) (rng : Rng) :
    adaptiveSearch sourceId targetId nodes edges w rng =
      if ((candidatePairs sourceId targetId nodes edges w rng).foldl minStep (none, [])).2 = []
          ∧ sourceId ≠ targetId then
        findPathBFS sourceId targetId nodes edges
      else ((candidatePairs sourceId targetId nodes edges w rng).foldl minStep (none, [])).2 := by
  rw [adaptiveSearch, foldl_adaptiveStep, adaptiveInit_eq_foldl, candidatePairs,
    List.foldl_append]

lemma foldl_minStep_some :
    ∀ (l : List (ℚ × List String)) (m : ℚ) (best : List String),
      ∃ c p, l.foldl minStep (some m, best) = (some c, p) ∧ c ≤ m ∧
        ((c = m ∧ p = best) ∨ (c, p) ∈ l) ∧ ∀ q ∈ l, c ≤ q.1
  | [], m, best => ⟨m, best, rfl, le_refl m, Or.inl ⟨rfl, rfl⟩, by simp⟩
  | q0 :: l, m, best => by
    rw [List.foldl_cons]
    by_cases hlt : q0.1 < m
    · rw [show minStep (some m, best) q0 = (some q0.1, q0.2) by simp [minStep, hlt]]
      obtain ⟨c, p, heq, hle, hmem, hall⟩ := foldl_minStep_some l q0.1 q0.2
      refine ⟨c, p, heq, le_trans hle (le_of_lt hlt), ?_, ?_⟩
      · rcases hmem with ⟨hc, hp⟩ | hm
        · exact Or.inr (by rw [hc, hp]; exact List.mem_cons_self _ _)
        · exact Or.inr (List.mem_cons_of_mem _ hm)
      · intro q hq
        rcases List.mem_cons.mp hq with h | h
        · rw [h]; exact hle
        · exact hall q h
    · rw [show minStep (some m, best) q0 = (some m, best) by simp [minStep, hlt]]
      obtain ⟨c, p, heq, hle, hmem, hall⟩ := foldl_minStep_some l m best
      refine ⟨c, p, heq, hle, ?_, ?_⟩
      · rcases hmem with h | hm
        · exact Or.inl h
        · exact Or.inr (List.mem_cons_of_mem _ hm)
      · intro q hq
        rcases List.mem_cons.mp hq with h | h
        · rw [h]; exact le_trans hle (not_lt.mp hlt)
        · exact hall q h

/-- The fold from the infinite initial cost over a non-empty candidate
list produces a candidate of the list attaining the minimum cost. -/
lemma foldl_minStep_min {l : List (ℚ × List String)} (hl : l ≠ []) :
    ∃ c p, l.foldl minStep (none, []) = (some c, p) ∧ (c, p) ∈ l ∧ ∀ q ∈ l, c ≤ q.1 := by
  cases l with
  | nil => exact absurd rfl hl
  | cons q0 l =>
    rw [List.foldl_cons, show minStep (none, []) q0 = (some q0.1, q0.2) from rfl]
    obtain ⟨c, p, heq, hle, hmem, hall⟩ := foldl_minStep_some l q0.1 q0.2
    refine ⟨c, p, heq, ?_, ?_⟩
    · rcases hmem with ⟨hc, hp⟩ | hm
      · rw [hc, hp]; exact List.mem_cons_self _ _
      · exact List.mem_cons_of_mem _ hm
    · intro q hq
      rcases List.mem_cons.mp hq with h | h
      · rw [h]; exact hle
      · exact hall q h

lemma candidatePairs_path_ne_nil {sourceId targetId : String} {nodes : List NodeRec}
    {edges : List EdgeRec} {w : Weights} {rng : Rng} {c : ℚ} {p : List String}
    (h : (c, p) ∈ candidatePairs sourceId targetId nodes edges w rng) : p ≠ [] := by
  rcases List.mem_append.mp h with hm | hm
  · unfold directPairs at hm
    revert hm
    cases edges.find? (edgeOk nodes sourceId targetId) <;>
      cases findNode nodes sourceId <;> intro hm
    · simp at hm
    · simp at hm
    · simp at hm
    · simp only [List.mem_singleton, Prod.mk.injEq] at hm
      rw [hm.2]
      simp
  · obtain ⟨iNode, _, hpair⟩ := List.mem_filterMap.mp hm
    unfold twoHopPair at hpair
    revert hpair
    cases edges.find? (edgeOk nodes sourceId iNode.id) <;>
      cases edges.find? (edgeOk nodes iNode.id targetId) <;> intro hpair
    · simp at hpair
    · simp at hpair
    · simp at hpair
    · simp only [Option.some_inj, Prod.mk.injEq] at hpair
      rw [← hpair.2]
      simp

/-! ### Lookup helpers under unique node ids -/

lemma findNode_of_nodup {nodes : List NodeRec}
    (hnd : (nodes.map (fun n => n.id)).Nodup) {n : NodeRec} (hn : n ∈ nodes) :
    findNode nodes n.id = some n := by
  have hsome : (nodes.find? (fun m => m.id == n.id)).isSome :=
    List.find?_isSome.mpr ⟨n, hn, by simp⟩
  obtain ⟨m, hm⟩ := Option.isSome_iff_exists.mp hsome
  have hmem := List.mem_of_find?_eq_some hm
  have hid : m.id = n.id := by simpa using List.find?_some hm
  have heq : m = n := List.inj_on_of_nodup_map hnd hmem hn hid
  rw [findNode, hm, heq]

lemma nodeLookupFailed_of_nodup {nodes : List NodeRec}
    (hnd : (nodes.map (fun n => n.id)).Nodup) {n : NodeRec} (hn : n ∈ nodes) :
    nodeLookupFailed nodes n.id = n.isFailed := by
  rw [nodeLookupFailed, findNode_of_nodup hnd hn]

lemma find?_filter {α : Type} (p q : α → Bool) :
    ∀ l : List α, (l.filter p).find? q = l.find? (fun a => p a && q a)
  | [] => rfl
  | a :: l => by
    by_cases hp : p a = true
    · by_cases hq : q a = true
      · simp [List.filter_cons, hp, List.find?_cons, hq]
      · simp [List.filter_cons, hp, List.find?_cons, hq, find?_filter p q l]
    · simp [List.filter_cons, hp, List.find?_cons, find?_filter p q l]

/-! ### Spec-side cost model and concrete fixtures -/

/-- Cost of the direct-edge candidate as the spec's Cost Model words
state it: `alpha * edge.latency`. -/
def specCostDirect (w : Weights) (e : EdgeRec) : ℚ :=
  w.alpha * e.latency

/-- Cost of a 2-hop candidate as the spec's Cost Model words state it,
from the stored battery and queue size of the intermediate node:
`alpha * (e1.latency + e2.latency) + beta * (100 - I.battery) +
gamma * I.queueSize`. Kept for comparison with the reference behavior,
which perturbs battery and queue size with random draws first. -/
def specCostTwoHop (w : Weights) (n : NodeRec) (e1 e2 : EdgeRec) : ℚ :=
  w.alpha * (e1.latency + e2.latency) + w.beta * (100 - n.battery) + w.gamma * n.queueSize

/-- The non-adaptive 2-hop condition on an intermediate node, stated
propositionally: distinct from the endpoints, not failed, and joined to
them by directed edges. -/
def twoHopProp (sourceId targetId : String) (edges : List EdgeRec) (j : NodeRec) : Prop :=
  j.id ≠ sourceId ∧ j.id ≠ targetId ∧ j.isFailed = false ∧
  (∃ e ∈ edges, e.source = sourceId ∧ e.target = j.id) ∧
  (∃ e ∈ edges, e.source = j.id ∧ e.target = targetId)

/-- Stub random source: every draw is zero. -/
def rng0 : Rng :=
  ⟨fun _ => 0, fun _ => 0, fun _ => 0, fun _ => 0, fun _ => 0, fun _ => 0⟩

/-- Random source taking the largest battery draw (`4`, variance `-2`)
and the largest queue draw (`5`, variance `+2`). -/
def rngHigh : Rng :=
  ⟨fun _ => 4, fun _ => 5, fun _ => 0, fun _ => 0, fun _ => 0, fun _ => 0⟩

/-- A non-failed node with full battery and an empty queue. -/
def healthyNode (i : String) : NodeRec :=
  ⟨i, 100, 0, false⟩

/-- An edge with the given latency and a nominal bandwidth. -/
def mkEdge (a b : String) (l : ℚ) : EdgeRec :=
  ⟨a, b, l, 100⟩

/-- The 4-node chain of property P6. -/
def chainNodes : List NodeRec :=
  [healthyNode "S", healthyNode "A", healthyNode "B", healthyNode "T"]

/-- The edges of the P6 chain: only `S→A→B→T`. -/
def chainEdges : List EdgeRec :=
  [mkEdge "S" "A" 10, mkEdge "A" "B" 10, mkEdge "B" "T" 10]

/-- Three nodes with a direct edge and a cheap 2-hop detour through a
healthy intermediate. -/
def perturbNodes : List NodeRec :=
  [healthyNode "S", healthyNode "I", healthyNode "T"]

/-- Direct latency `11/5`; 2-hop summed latency `2`. -/
def perturbEdges : List EdgeRec :=
  [mkEdge "S" "T" (11/5), mkEdge "S" "I" 1, mkEdge "I" "T" 1]

/-- The balanced weights of the default parameters. -/
def balancedWeights : Weights :=
  ⟨2/5, 3/10, 3/10⟩

/-- The latency-only weights of properties P4 and the E2E scenario. -/
def latencyOnlyWeights : Weights :=
  ⟨1, 0, 0⟩

/-- The P4 topology: direct edge of latency 5 and a 2-hop detour of
summed latency 50 through a healthy intermediate. -/
def p4Nodes : List NodeRec :=
  [healthyNode "S", healthyNode "I", healthyNode "T"]

/-- The P4 edges. -/
def p4Edges : List EdgeRec :=
  [mkEdge "S" "T" 5, mkEdge "S" "I" 25, mkEdge "I" "T" 25]

/-- The E2E scenario nodes. -/
def e2eNodes : List NodeRec :=
  [healthyNode "S", healthyNode "R1", healthyNode "R2", healthyNode "T"]

/-- The E2E scenario edges: two 2-hop routes of summed latency 10 and 16. -/
def e2eEdges : List EdgeRec :=
  [mkEdge "S" "R1" 5, mkEdge "R1" "T" 5, mkEdge "S" "R2" 8, mkEdge "R2" "T" 8]

/-! ### Helper lemmas about the simulation guards -/

lemma findNode_mem_id {nodes : List NodeRec} {i : String} {n : NodeRec}
    (h : findNode nodes i = some n) : n ∈ nodes ∧ n.id = i := by
  refine ⟨List.mem_of_find?_eq_some h, ?_⟩
  simpa using List.find?_some h

lemma nodeLookupFailed_eq_false_of_find {nodes : List NodeRec} {i : String} {n : NodeRec}
    (h : findNode nodes i = some n) (hok : n.isFailed = false) :
    nodeLookupFailed nodes i = false := by
  rw [nodeLookupFailed, h]
  exact hok

/-- The source-equals-target short-circuit: with a selected, existing,
non-failed endpoint the simulation returns the trivial self-path
results, whatever the rest of the graph and the parameters are. -/
lemma runSimulation_self {nodes : List NodeRec} {edges : List EdgeRec}
    {params : SimulationParams} {rng : Rng} {n : NodeRec}
    (hself : params.sourceNode = params.targetNode) (hs : params.sourceNode ≠ "")
    (hfind : findNode nodes params.sourceNode = some n) (hok : n.isFailed = false) :
    runSimulation nodes edges params rng =
      .ok (selfPathResults params.algorithm params.sourceNode) := by
  have hsf : nodeLookupFailed nodes params.sourceNode = false :=
    nodeLookupFailed_eq_false_of_find hfind hok
  have hvalid : 1 ≤ (validNodes nodes).length := by
    have hmem : n ∈ validNodes nodes :=
      List.mem_filter.mpr ⟨(findNode_mem_id hfind).1, by rw [hok]; rfl⟩
    exact List.length_pos.mpr (List.ne_nil_of_mem hmem)
  simp only [runSimulation]
  rw [if_neg (not_or.mpr ⟨hs, fun h => hs (hself.trans h)⟩)]
  rw [if_neg (by rw [hsf]; exact Bool.false_ne_true)]
  rw [if_neg (by rw [← hself, hsf]; exact Bool.false_ne_true)]
  rw [if_pos ⟨hself, hvalid⟩]

/-- Evaluation of the guard chain when every check passes: the
simulation runs one search per algorithm. -/
lemma runSimulation_main {nodes : List NodeRec} {edges : List EdgeRec}
    {params : SimulationParams} {rng : Rng}
    (hs : params.sourceNode ≠ "") (ht : params.targetNode ≠ "")
    (hsf : nodeLookupFailed nodes params.sourceNode = false)
    (htf : nodeLookupFailed nodes params.targetNode = false)
    (hst : params.sourceNode ≠ params.targetNode)
    (hw : (params.algorithm = .adaptive ∨ params.algorithm = .compare) →
      |weightsTotal params.weights - 1| ≤ 1/1000) :
    runSimulation nodes edges params rng =
      .ok ((algorithmsToRun params.algorithm).map
        (runAlgo params.sourceNode params.targetNode nodes edges params.weights rng)) := by
  simp only [runSimulation]
  rw [if_neg (not_or.mpr ⟨hs, ht⟩)]
  rw [if_neg (by rw [hsf]; exact Bool.false_ne_true)]
  rw [if_neg (by rw [htf]; exact Bool.false_ne_true)]
  rw [if_neg (fun hc => hst hc.1)]
  rw [if_neg (fun hc => absurd hc.2 (not_lt.mpr (hw hc.1)))]

/-! ### The simulation with all edges removed -/

lemma bfsLoop_nil_queue (adj : String → List String) (t : String) :
    ∀ (fuel : ℕ) (visited : List String), bfsLoop adj t fuel [] visited = []
  | 0, _ => rfl
  | _ + 1, _ => rfl

lemma findPathBFS_nil_edges (s t : String) (nodes : List NodeRec) (hst : s ≠ t) :
    findPathBFS s t nodes [] = [] := by
  rw [findPathBFS]
  split_ifs with h1 h2 h3
  · rfl
  · rfl
  · rfl
  · rw [bfsLoop_cons]
    rw [if_neg (show ¬((([s] : List String).getLastD "" == t) = true) from
      fun h => hst (beq_iff_eq.mp h))]
    rw [show adjOf nodes [] (([s] : List String).getLastD "") = [] from rfl]
    rw [show pushNeighbors [s] [] ([] : List (List String)) [s] = ([], [s]) from rfl]
    exact bfsLoop_nil_queue _ _ _ _

lemma foldl_adaptiveStep_nil_edges (s t : String) (nodes : List NodeRec)
    (w : Weights) (rng : Rng) :
    ∀ (l : List NodeRec) (acc : AdaptiveAcc),
      l.foldl (adaptiveStep s t nodes [] w rng) acc = acc
  | [], _ => rfl
  | i :: l, acc => by
    rw [List.foldl_cons, show adaptiveStep s t nodes [] w rng acc i = acc from rfl,
      foldl_adaptiveStep_nil_edges s t nodes w rng l acc]

lemma adaptiveSearch_nil_edges (s t : String) (nodes : List NodeRec) (w : Weights)
    (rng : Rng) (hst : s ≠ t) : adaptiveSearch s t nodes [] w rng = [] := by
  simp only [adaptiveSearch]
  rw [foldl_adaptiveStep_nil_edges, show adaptiveInit s t nodes [] w = (none, []) from rfl]
  rw [if_pos ⟨rfl, hst⟩]
  exact findPathBFS_nil_edges s t nodes hst

lemma nonAdaptiveSearch_nil_edges (s t : String) (nodes : List NodeRec) (hst : s ≠ t) :
    nonAdaptiveSearch s t nodes [] = [] := by
  have h2 : (intermediateCandidates s t nodes).find? (twoHopExists s t nodes []) = none :=
    List.find?_eq_none.mpr (fun i _ => by
      rw [show twoHopExists s t nodes [] i = false from rfl]
      simp)
  simp only [nonAdaptiveSearch, List.find?_nil, h2]
  rw [if_pos hst]
  exact findPathBFS_nil_edges s t nodes hst

lemma runAlgo_nil_edges_path (s t : String) (nodes : List NodeRec) (w : Weights)
    (rng : Rng) (algo : Algorithm) (hst : s ≠ t) :
    (runAlgo s t nodes [] w rng algo).path = [] := by
  show (if algo = .adaptive then adaptiveSearch s t nodes [] w rng
    else nonAdaptiveSearch s t nodes []) = []
  by_cases h : algo = .adaptive
  · rw [if_pos h]
    exact adaptiveSearch_nil_edges s t nodes w rng hst
  · rw [if_neg h]
    exact nonAdaptiveSearch_nil_edges s t nodes hst

lemma synthMetrics_no_path (algo : Algorithm) (w : Weights) (edges : List EdgeRec)
    (rng : Rng) (s t : String) (hst : s ≠ t) :
    synthMetrics algo w edges rng s t [] =
      ⟨.inf, .inf, .val 0, .val 0⟩ := by
  simp only [synthMetrics]
  rw [if_pos ⟨rfl, hst⟩]

/-! ### Latency-only weights make the adaptive search draw-independent -/

lemma twoHopCost_alpha_only (a : ℚ) (rng : Rng) (n : NodeRec) (e1 e2 : EdgeRec) :
    twoHopCost ⟨a, 0, 0⟩ rng n e1 e2 = a * (e1.latency + e2.latency) := by
  simp [twoHopCost]

lemma twoHopPair_alpha_only (s t : String) (nodes : List NodeRec) (edges : List EdgeRec)
    (a : ℚ) (rng rng' : Rng) :
    twoHopPair s t nodes edges ⟨a, 0, 0⟩ rng = twoHopPair s t nodes edges ⟨a, 0, 0⟩ rng' := by
  funext i
  unfold twoHopPair
  cases edges.find? (edgeOk nodes s i.id) <;> cases edges.find? (edgeOk nodes i.id t) <;>
    simp [twoHopCost_alpha_only]

lemma adaptiveSearch_alpha_only (s t : String) (nodes : List NodeRec) (edges : List EdgeRec)
    (a : ℚ) (rng rng' : Rng) :
    adaptiveSearch s t nodes edges ⟨a, 0, 0⟩ rng =
      adaptiveSearch s t nodes edges ⟨a, 0, 0⟩ rng' := by
  rw [adaptiveSearch_eq_fold, adaptiveSearch_eq_fold]
  simp only [candidatePairs, twoHopPair_alpha_only s t nodes edges a rng rng']

/-! ### The non-adaptive search under distinct, valid, unique ids -/

lemma edgeOk_iff {nodes : List NodeRec} {a b : String} {e : EdgeRec}
    (ha : nodeLookupFailed nodes a = false) (hb : nodeLookupFailed nodes b = false) :
    edgeOk nodes a b e = true ↔ e.source = a ∧ e.target = b := by
  constructor
  · intro h
    simp only [edgeOk, Bool.and_eq_true, beq_iff_eq] at h
    exact ⟨h.1.1.1, h.1.1.2⟩
  · rintro ⟨h1, h2⟩
    simp [edgeOk, h1, h2, ha, hb]

lemma find?_edgeOk_isSome {nodes : List NodeRec} {edges : List EdgeRec} {a b : String}
    (ha : nodeLookupFailed nodes a = false) (hb : nodeLookupFailed nodes b = false)
    (h : ∃ e ∈ edges, e.source = a ∧ e.target = b) :
    ∃ e, edges.find? (edgeOk nodes a b) = some e := by
  obtain ⟨e, he, h1, h2⟩ := h
  exact Option.isSome_iff_exists.mp
    (List.find?_isSome.mpr ⟨e, he, (edgeOk_iff ha hb).mpr ⟨h1, h2⟩⟩)

lemma find?_edgeOk_none {nodes : List NodeRec} {edges : List EdgeRec} {a b : String}
    (h : ¬ ∃ e ∈ edges, e.source = a ∧ e.target = b) :
    edges.find? (edgeOk nodes a b) = none := by
  refine List.find?_eq_none.mpr (fun e he hc => h ⟨e, he, ?_⟩)
  simp only [edgeOk, Bool.and_eq_true, beq_iff_eq] at hc
  exact ⟨hc.1.1.1, hc.1.1.2⟩

lemma twoHopExists_iff {sourceId targetId : String} {nodes : List NodeRec}
    {edges : List EdgeRec}
    (hnd : (nodes.map (fun n => n.id)).Nodup)
    (hsf : nodeLookupFailed nodes sourceId = false)
    (htf : nodeLookupFailed nodes targetId = false)
    {j : NodeRec} (hj : j ∈ nodes) (hjf : j.isFailed = false) :
    twoHopExists sourceId targetId nodes edges j = true ↔
      (∃ e ∈ edges, e.source = sourceId ∧ e.target = j.id) ∧
      (∃ e ∈ edges, e.source = j.id ∧ e.target = targetId) := by
  have hjl : nodeLookupFailed nodes j.id = false := by
    rw [nodeLookupFailed_of_nodup hnd hj]; exact hjf
  rw [twoHopExists, Bool.and_eq_true, List.any_eq_true, List.any_eq_true]
  constructor
  · rintro ⟨⟨e1, he1, hok1⟩, ⟨e2, he2, hok2⟩⟩
    exact ⟨⟨e1, he1, (edgeOk_iff hsf hjl).mp hok1⟩,
      ⟨e2, he2, (edgeOk_iff hjl htf).mp hok2⟩⟩
  · rintro ⟨⟨e1, he1, h1, h2⟩, ⟨e2, he2, h3, h4⟩⟩
    exact ⟨⟨e1, he1, (edgeOk_iff hsf hjl).mpr ⟨h1, h2⟩⟩,
      ⟨e2, he2, (edgeOk_iff hjl htf).mpr ⟨h3, h4⟩⟩⟩

lemma twoHopProp_bool {sourceId targetId : String} {nodes : List NodeRec}
    {edges : List EdgeRec}
    (hnd : (nodes.map (fun n => n.id)).Nodup)
    (hsf : nodeLookupFailed nodes sourceId = false)
    (htf : nodeLookupFailed nodes targetId = false)
    {j : NodeRec} (hj : j ∈ nodes) :
    ((j.id != sourceId && j.id != targetId && !j.isFailed) &&
        twoHopExists sourceId targetId nodes edges j) = true ↔
      twoHopProp sourceId targetId edges j := by
  rw [Bool.and_eq_true]
  constructor
  · rintro ⟨hc, ht2⟩
    simp only [Bool.and_eq_true, bne_iff_ne, Bool.not_eq_true'] at hc
    obtain ⟨⟨h1, h2⟩, h3⟩ := hc
    obtain ⟨ha, hb⟩ := (twoHopExists_iff hnd hsf htf hj h3).mp ht2
    exact ⟨h1, h2, h3, ha, hb⟩
  · rintro ⟨h1, h2, h3, ha, hb⟩
    refine ⟨?_, (twoHopExists_iff hnd hsf htf hj h3).mpr ⟨ha, hb⟩⟩
    simp [h1, h2, h3]

lemma find?_append_first {α : Type} (p : α → Bool) :
    ∀ (l1 : List α) (x : α) (l2 : List α), (∀ j ∈ l1, p j = false) → p x = true →
      (l1 ++ x :: l2).find? p = some x
  | [], x, l2 => fun _ hx => by simp [List.find?_cons, hx]
  | a :: l1, x, l2 => fun h hx => by
    have ha := h a (List.mem_cons_self _ _)
    rw [List.cons_append, List.find?_cons, ha]
    exact find?_append_first p l1 x l2 (fun j hj => h j (List.mem_cons_of_mem _ hj)) hx

/-- Shape of the self short-circuit results: always non-empty, and
every entry is the single-element path with the trivial metrics. -/
lemma selfPathResults_spec (algo : Algorithm) (s : String) :
    selfPathResults algo s ≠ [] ∧
      ∀ r ∈ selfPathResults algo s, r.path = [s] ∧ r.metrics = trivialSelfMetrics := by
  cases algo <;> refine ⟨by simp [selfPathResults], ?_⟩ <;>
    · intro r hr
      simp only [selfPathResults, List.mem_cons, List.not_mem_nil, or_false] at hr
      first
        | (rcases hr with rfl | rfl | rfl <;> exact ⟨rfl, rfl⟩)
        | (rcases hr with rfl; exact ⟨rfl, rfl⟩)

/-! ### Claim C1 -/

/-- C1 counterexample: source = target `"S"` while a second non-failed
node exists. The claim demands a `DegenerateEndpoints` error and no
results; the code instead returns the trivial single-node success. -/
theorem claimC1_counterexample :
    runSimulation [healthyNode "S", healthyNode "T"] []
        ⟨.dijkstra, "S", "S", balancedWeights⟩ rng0 =
      .ok [⟨.dijkstra, ["S"], trivialSelfMetrics⟩] ∧
    1 < (validNodes [healthyNode "S", healthyNode "T"]).length := by
  exact ⟨rfl, by decide⟩

/-- C1 (amended): whenever source = target is a selected, existing,
non-failed node, the computation short-circuits to the trivial
single-node path success — one result per algorithm run, each with path
`[source]` and the trivial metrics — regardless of how many other
non-failed nodes exist; no `DegenerateEndpoints` error is ever
produced. -/
theorem claimC1_theorem (nodes : List NodeRec) (edges : List EdgeRec)
    (params : SimulationParams) (rng : Rng) (n : NodeRec)
    (hself : params.sourceNode = params.targetNode)
    (hs : params.sourceNode ≠ "")
    (hfind : findNode nodes params.sourceNode = some n)
    (hok : n.isFailed = false) :
    ∃ rs, runSimulation nodes edges params rng = .ok rs ∧ rs ≠ [] ∧
      ∀ r ∈ rs, r.path = [params.sourceNode] ∧ r.metrics = trivialSelfMetrics := by
  obtain ⟨hne, hall⟩ := selfPathResults_spec params.algorithm params.sourceNode
  exact ⟨selfPathResults params.algorithm params.sourceNode,
    runSimulation_self hself hs hfind hok, hne, hall⟩

/-- Witness for C1 at a concrete two-node graph. -/
theorem claimC1_witness :
    ∃ rs, runSimulation [healthyNode "S", healthyNode "T"] []
        ⟨.dijkstra, "S", "S", balancedWeights⟩ rng0 = .ok rs ∧ rs ≠ [] ∧
      ∀ r ∈ rs, r.path = ["S"] ∧ r.metrics = trivialSelfMetrics :=
  claimC1_theorem [healthyNode "S", healthyNode "T"] []
    ⟨.dijkstra, "S", "S", balancedWeights⟩ rng0 (healthyNode "S")
    rfl (by decide) (by decide) rfl

/-! ### Claim C5 -/

/-- C5 counterexample: algorithm `adaptive` with weights summing to
`3/2` but with source = target on a non-failed node. The claim demands
a `WeightsNotNormalized` error; the self short-circuit precedes the
validation and returns the trivial success instead. -/
theorem claimC5_counterexample :
    runSimulation [healthyNode "X"] []
        ⟨.adaptive, "X", "X", ⟨1/2, 1/2, 1/2⟩⟩ rng0 =
      .ok [⟨.adaptive, ["X"], trivialSelfMetrics⟩] ∧
    1/1000 < |weightsTotal ⟨1/2, 1/2, 1/2⟩ - 1| := by
  refine ⟨rfl, ?_⟩
  have h : weightsTotal ⟨1/2, 1/2, 1/2⟩ - 1 = 1/2 := by
    rw [weightsTotal]
    norm_num
  rw [h, abs_of_pos (by norm_num : (0:ℚ) < 1/2)]
  norm_num

/-- C5 (amended): with selected, non-failed, *distinct* endpoints, an
adaptive or compare invocation whose weights miss `1` by more than
`1/1000` errors with `WeightsNotNormalized` and produces no results;
weights within the tolerance pass validation and results are
produced. (The source-equals-target short-circuit precedes this
validation, which is what the counterexample exhibits.) -/
theorem claimC5_theorem (nodes : List NodeRec) (edges : List EdgeRec)
    (params : SimulationParams) (rng : Rng)
    (hs : params.sourceNode ≠ "") (ht : params.targetNode ≠ "")
    (hsf : nodeLookupFailed nodes params.sourceNode = false)
    (htf : nodeLookupFailed nodes params.targetNode = false)
    (hst : params.sourceNode ≠ params.targetNode)
    (halgo : params.algorithm = .adaptive ∨ params.algorithm = .compare) :
    (1/1000 < |weightsTotal params.weights - 1| →
      runSimulation nodes edges params rng = .error .weightsNotNormalized) ∧
    (|weightsTotal params.weights - 1| ≤ 1/1000 →
      ∃ rs, runSimulation nodes edges params rng = .ok rs) := by
  constructor
  · intro hbad
    simp only [runSimulation]
    rw [if_neg (not_or.mpr ⟨hs, ht⟩)]
    rw [if_neg (by rw [hsf]; exact Bool.false_ne_true)]
    rw [if_neg (by rw [htf]; exact Bool.false_ne_true)]
    rw [if_neg (fun hc => hst hc.1)]
    rw [if_pos ⟨halgo, hbad⟩]
  · intro hgood
    exact ⟨_, runSimulation_main hs ht hsf htf hst (fun _ => hgood)⟩

/-- Witness for C5 at a concrete two-node graph with distinct
endpoints: the weights `{1/2, 1/2, 1/2}` are rejected there, and the
balanced weights pass. -/
theorem claimC5_witness :
    (1/1000 < |weightsTotal ⟨1/2, 1/2, 1/2⟩ - 1| →
      runSimulation [healthyNode "S", healthyNode "T"] []
        ⟨.adaptive, "S", "T", ⟨1/2, 1/2, 1/2⟩⟩ rng0 = .error .weightsNotNormalized) ∧
    (|weightsTotal ⟨1/2, 1/2, 1/2⟩ - 1| ≤ 1/1000 →
      ∃ rs, runSimulation [healthyNode "S", healthyNode "T"] []
        ⟨.adaptive, "S", "T", ⟨1/2, 1/2, 1/2⟩⟩ rng0 = .ok rs) :=
  claimC5_theorem [healthyNode "S", healthyNode "T"] []
    ⟨.adaptive, "S", "T", ⟨1/2, 1/2, 1/2⟩⟩ rng0
    (by decide) (by decide) (by decide) (by decide) (by decide) (Or.inl rfl)

/-! ### Claim C6 -/

/-- C6: if the node looked up for the source id or for the target id is
marked failed, the computation errors with `EndpointFailed` (and hence
returns no results and performs no path search), whatever the rest of
the graph and parameters are. -/
theorem claimC6_theorem (nodes : List NodeRec) (edges : List EdgeRec)
    (params : SimulationParams) (rng : Rng)
    (hs : params.sourceNode ≠ "") (ht : params.targetNode ≠ "")
    (hfail : nodeLookupFailed nodes params.sourceNode = true ∨
      nodeLookupFailed nodes params.targetNode = true) :
    runSimulation nodes edges params rng = .error .endpointFailed := by
  simp only [runSimulation]
  rw [if_neg (not_or.mpr ⟨hs, ht⟩)]
  by_cases hsf : nodeLookupFailed nodes params.sourceNode = true
  · rw [if_pos hsf]
  · rw [if_neg hsf]
    rcases hfail with h | h
    · exact absurd h hsf
    · rw [if_pos h]

/-- Witness for C6: a failed source node on a two-node graph. -/
theorem claimC6_witness :
    runSimulation [⟨"S", 100, 0, true⟩, healthyNode "T"] []
        ⟨.dijkstra, "S", "T", balancedWeights⟩ rng0 = .error .endpointFailed :=
  claimC6_theorem [⟨"S", 100, 0, true⟩, healthyNode "T"] []
    ⟨.dijkstra, "S", "T", balancedWeights⟩ rng0
    (by decide) (by decide) (Or.inl (by decide))

/-! ### Claim C9 -/

/-- C9: when the selected source equals the target, that node exists,
is non-failed, and is the only non-failed node, every returned result
is the single-element path with zero energy, zero latency and delivery
ratio one. -/
theorem claimC9_theorem (nodes : List NodeRec) (edges : List EdgeRec)
    (params : SimulationParams) (rng : Rng) (n : NodeRec)
    (hself : params.sourceNode = params.targetNode)
    (hs : params.sourceNode ≠ "")
    (hfind : findNode nodes params.sourceNode = some n)
    (hok : n.isFailed = false)
    (honly : validNodes nodes = [n]) :
    ∃ rs, runSimulation nodes edges params rng = .ok rs ∧ rs ≠ [] ∧
      ∀ r ∈ rs, r.path = [params.sourceNode] ∧
        r.metrics.energyConsumption = .val 0 ∧
        r.metrics.averageLatency = .val 0 ∧
        r.metrics.deliveryRatio = .val 1 := by
  obtain ⟨hne, hall⟩ := selfPathResults_spec params.algorithm params.sourceNode
  refine ⟨selfPathResults params.algorithm params.sourceNode,
    runSimulation_self hself hs hfind hok, hne, fun r hr => ?_⟩
  obtain ⟨hpath, hmet⟩ := hall r hr
  exact ⟨hpath, by rw [hmet]; exact rfl, by rw [hmet]; exact rfl, by rw [hmet]; exact rfl⟩

/-- Witness for C9: a single-node graph with source = target. -/
theorem claimC9_witness :
    ∃ rs, runSimulation [healthyNode "X"] []
        ⟨.compare, "X", "X", balancedWeights⟩ rng0 = .ok rs ∧ rs ≠ [] ∧
      ∀ r ∈ rs, r.path = ["X"] ∧
        r.metrics.energyConsumption = .val 0 ∧
        r.metrics.averageLatency = .val 0 ∧
        r.metrics.deliveryRatio = .val 1 :=
  claimC9_theorem [healthyNode "X"] [] ⟨.compare, "X", "X", balancedWeights⟩ rng0
    (healthyNode "X") rfl (by decide) (by decide) rfl (by decide)

/-! ### Claim C3 -/

/-- C3 counterexample: `findPathBFS` checks source = target *before*
the failed-endpoint check, so routing a failed node to itself yields
`["X"]` where the claim demands the empty sequence; and an empty id is
falsy in JS, so `findPathBFS "" ""` yields `[]` where the claim demands
`[""]`. -/
theorem claimC3_counterexample :
    findPathBFS "X" "X" [⟨"X", 100, 0, true⟩] [] = ["X"] ∧
    nodeLookupFailed [⟨"X", 100, 0, true⟩] "X" = true ∧
    findPathBFS "" "" [] [] = [] := by
  exact ⟨rfl, rfl, rfl⟩

/-- C3 (amended): for non-empty ids, `findPathBFS` returns `[sourceId]`
whenever source = target, even if that node is failed; for distinct ids
it returns the empty sequence when the looked-up source or target node
is failed; and it returns the empty sequence whenever the target is not
reachable from the source over the strictly directed adjacency built
from edges whose source and target nodes are both non-failed. -/
theorem claimC3_theorem (sourceId targetId : String) (nodes : List NodeRec)
    (edges : List EdgeRec) (hs : sourceId ≠ "") (ht : targetId ≠ "") :
    (sourceId = targetId → findPathBFS sourceId targetId nodes edges = [sourceId]) ∧
    (sourceId ≠ targetId →
      nodeLookupFailed nodes sourceId = true ∨ nodeLookupFailed nodes targetId = true →
      findPathBFS sourceId targetId nodes edges = []) ∧
    (¬ reachable nodes edges sourceId targetId →
      findPathBFS sourceId targetId nodes edges = []) := by
  refine ⟨?_, ?_, ?_⟩
  · intro heq
    rw [findPathBFS, if_neg (not_or.mpr ⟨hs, ht⟩), if_pos heq]
  · intro hne hfail
    rw [findPathBFS, if_neg (not_or.mpr ⟨hs, ht⟩), if_neg hne,
      if_pos ((Bool.or_eq_true _ _).mpr hfail)]
  · intro hnr
    by_contra hne
    exact hnr (reachable_of_findPathBFS_ne_nil hne)

/-- Witness for C3 at concrete distinct non-empty ids on the empty
graph (where the target is trivially unreachable). -/
theorem claimC3_witness :
    ("a" = "b" → findPathBFS "a" "b" [] [] = ["a"]) ∧
    ("a" ≠ "b" →
      nodeLookupFailed [] "a" = true ∨ nodeLookupFailed [] "b" = true →
      findPathBFS "a" "b" [] [] = []) ∧
    (¬ reachable [] [] "a" "b" → findPathBFS "a" "b" [] [] = []) :=
  claimC3_theorem "a" "b" [] [] (by decide) (by decide)

/-! ### Claim C10 -/

/-- C10: every non-empty path returned by `findPathBFS` starts at the
source id, ends at the target id, contains no repeated node id, and
every consecutive pair is joined by a directed edge whose source and
target nodes are both non-failed. -/
theorem claimC10_theorem (sourceId targetId : String) (nodes : List NodeRec)
    (edges : List EdgeRec)
    (h : findPathBFS sourceId targetId nodes edges ≠ []) :
    (findPathBFS sourceId targetId nodes edges).head? = some sourceId ∧
    (findPathBFS sourceId targetId nodes edges).getLast? = some targetId ∧
    (findPathBFS sourceId targetId nodes edges).Nodup ∧
    (findPathBFS sourceId targetId nodes edges).Chain' (fun a b =>
      ∃ e ∈ edges, e.source = a ∧ e.target = b ∧
        (∃ na ∈ nodes, na.id = a ∧ na.isFailed = false) ∧
        (∃ nb ∈ nodes, nb.id = b ∧ nb.isFailed = false)) :=
  findPathBFS_spec h

/-- Witness for C10 on the 4-node chain, where the BFS result is the
non-empty path `[S, A, B, T]`. -/
theorem claimC10_witness :
    (findPathBFS "S" "T" chainNodes chainEdges).head? = some "S" ∧
    (findPathBFS "S" "T" chainNodes chainEdges).getLast? = some "T" ∧
    (findPathBFS "S" "T" chainNodes chainEdges).Nodup ∧
    (findPathBFS "S" "T" chainNodes chainEdges).Chain' (fun a b =>
      ∃ e ∈ chainEdges, e.source = a ∧ e.target = b ∧
        (∃ na ∈ chainNodes, na.id = a ∧ na.isFailed = false) ∧
        (∃ nb ∈ chainNodes, nb.id = b ∧ nb.isFailed = false)) :=
  claimC10_theorem "S" "T" chainNodes chainEdges (by decide)

/-! ### Claim C7 -/

/-- C7: with selected, distinct, non-failed endpoints and (for adaptive
or compare) weights within tolerance, removing all edges does not
produce an error: every algorithm run returns a normal result whose
path is the empty sequence, with delivery ratio `0` and infinite energy
consumption (and infinite average latency). -/
theorem claimC7_theorem (nodes : List NodeRec) (params : SimulationParams) (rng : Rng)
    (hs : params.sourceNode ≠ "") (ht : params.targetNode ≠ "")
    (hst : params.sourceNode ≠ params.targetNode)
    (hsf : nodeLookupFailed nodes params.sourceNode = false)
    (htf : nodeLookupFailed nodes params.targetNode = false)
    (hw : (params.algorithm = .adaptive ∨ params.algorithm = .compare) →
      |weightsTotal params.weights - 1| ≤ 1/1000) :
    ∃ rs, runSimulation nodes [] params rng = .ok rs ∧ rs ≠ [] ∧
      ∀ r ∈ rs, r.path = [] ∧ r.metrics.deliveryRatio = .val 0 ∧
        r.metrics.energyConsumption = .inf ∧ r.metrics.averageLatency = .inf := by
  refine ⟨_, runSimulation_main hs ht hsf htf hst hw, ?_, ?_⟩
  · cases params.algorithm <;> simp [algorithmsToRun]
  · intro r hr
    obtain ⟨algo, _, rfl⟩ := List.mem_map.mp hr
    have hpath : (runAlgo params.sourceNode params.targetNode nodes []
        params.weights rng algo).path = [] :=
      runAlgo_nil_edges_path _ _ _ _ _ _ hst
    have hm : (runAlgo params.sourceNode params.targetNode nodes []
          params.weights rng algo).metrics
        = synthMetrics algo params.weights [] rng params.sourceNode params.targetNode
          ((runAlgo params.sourceNode params.targetNode nodes []
            params.weights rng algo).path) := rfl
    rw [hm, hpath, synthMetrics_no_path _ _ _ _ _ _ hst]
    exact ⟨rfl, rfl, rfl, rfl⟩

/-- Witness for C7 on a two-node graph with no edges. -/
theorem claimC7_witness :
    ∃ rs, runSimulation [healthyNode "S", healthyNode "T"]
        [] ⟨.compare, "S", "T", balancedWeights⟩ rng0 = .ok rs ∧ rs ≠ [] ∧
      ∀ r ∈ rs, r.path = [] ∧ r.metrics.deliveryRatio = .val 0 ∧
        r.metrics.energyConsumption = .inf ∧ r.metrics.averageLatency = .inf :=
  claimC7_theorem [healthyNode "S", healthyNode "T"]
    ⟨.compare, "S", "T", balancedWeights⟩ rng0
    (by decide) (by decide) (by decide) (by decide) (by decide)
    (fun _ => by rw [show weightsTotal balancedWeights - 1 = 0 by
      rw [weightsTotal, balancedWeights]; norm_num]; simp)

lemma minStep_none (best : List String) (c : ℚ × List String) :
    minStep (none, best) c = (some c.1, c.2) := rfl

lemma minStep_some (m : ℚ) (best : List String) (c : ℚ × List String) :
    minStep (some m, best) c = if c.1 < m then (some c.1, c.2) else (some m, best) := rfl

/-! ### Claim C2 -/

/-- C2 counterexample: the 2-hop cost uses randomly perturbed
"perceived" battery and queue values, so the selection is not a
deterministic function of the snapshot and weights, and the evaluated
cost is not `beta * (100 - I.battery) + gamma * I.queueSize`: on one
snapshot and weights, zero draws select `[S, I, T]` while maximal draws
select `[S, T]`, even though the spec's cost formula makes the 2-hop
candidate strictly cheaper than the direct one. -/
theorem claimC2_counterexample :
    adaptiveSearch "S" "T" perturbNodes perturbEdges balancedWeights rng0
      = ["S", "I", "T"] ∧
    adaptiveSearch "S" "T" perturbNodes perturbEdges balancedWeights rngHigh
      = ["S", "T"] ∧
    specCostTwoHop balancedWeights (healthyNode "I") (mkEdge "S" "I" 1) (mkEdge "I" "T" 1)
      < specCostDirect balancedWeights (mkEdge "S" "T" (11/5)) := by
  refine ⟨?_, ?_, ?_⟩
  · have hcost : twoHopCost balancedWeights rng0 (healthyNode "I")
        (mkEdge "S" "I" 1) (mkEdge "I" "T" 1) = 4/5 := by
      rw [twoHopCost, perceivedBattery, perceivedQueueSize]
      norm_num [balancedWeights, rng0, healthyNode, mkEdge, min_def, max_def]
    rw [adaptiveSearch_eq_fold,
      show candidatePairs "S" "T" perturbNodes perturbEdges balancedWeights rng0 =
        [(11/5 * (2/5), ["S", "T"]),
         (twoHopCost balancedWeights rng0 (healthyNode "I")
           (mkEdge "S" "I" 1) (mkEdge "I" "T" 1), ["S", "I", "T"])] from rfl,
      List.foldl_cons, minStep_none, List.foldl_cons, minStep_some, List.foldl_nil]
    rw [if_pos (show ((twoHopCost balancedWeights rng0 (healthyNode "I")
        (mkEdge "S" "I" 1) (mkEdge "I" "T" 1), ["S", "I", "T"]) : ℚ × List String).1
        < 11/5 * (2/5) by rw [show ((twoHopCost balancedWeights rng0 (healthyNode "I")
          (mkEdge "S" "I" 1) (mkEdge "I" "T" 1), ["S", "I", "T"]) : ℚ × List String).1
          = twoHopCost balancedWeights rng0 (healthyNode "I")
            (mkEdge "S" "I" 1) (mkEdge "I" "T" 1) from rfl, hcost]; norm_num)]
    rw [if_neg (fun hc => (List.cons_ne_nil "S" ["I", "T"]) hc.1)]
  · have hcost : twoHopCost balancedWeights rngHigh (healthyNode "I")
        (mkEdge "S" "I" 1) (mkEdge "I" "T" 1) = 2 := by
      rw [twoHopCost, perceivedBattery, perceivedQueueSize]
      norm_num [balancedWeights, rngHigh, healthyNode, mkEdge, min_def, max_def]
    rw [adaptiveSearch_eq_fold,
      show candidatePairs "S" "T" perturbNodes perturbEdges balancedWeights rngHigh =
        [(11/5 * (2/5), ["S", "T"]),
         (twoHopCost balancedWeights rngHigh (healthyNode "I")
           (mkEdge "S" "I" 1) (mkEdge "I" "T" 1), ["S", "I", "T"])] from rfl,
      List.foldl_cons, minStep_none, List.foldl_cons, minStep_some, List.foldl_nil]
    rw [if_neg (show ¬(((twoHopCost balancedWeights rngHigh (healthyNode "I")
        (mkEdge "S" "I" 1) (mkEdge "I" "T" 1), ["S", "I", "T"]) : ℚ × List String).1
        < 11/5 * (2/5)) by rw [show ((twoHopCost balancedWeights rngHigh (healthyNode "I")
          (mkEdge "S" "I" 1) (mkEdge "I" "T" 1), ["S", "I", "T"]) : ℚ × List String).1
          = twoHopCost balancedWeights rngHigh (healthyNode "I")
            (mkEdge "S" "I" 1) (mkEdge "I" "T" 1) from rfl, hcost]; norm_num)]
    rw [if_neg (fun hc => (List.cons_ne_nil "S" ["T"]) hc.1)]
  · rw [specCostTwoHop, specCostDirect]
    norm_num [balancedWeights, healthyNode, mkEdge]

/-- C2 (amended): whenever at least one candidate exists, the adaptive
search returns a candidate path attaining the minimum cost over the
candidate list, in which the direct candidate costs
`edge.latency * alpha` and a 2-hop candidate costs
`alpha * (e1.latency + e2.latency) + beta * (100 - perceivedBattery) +
gamma * perceivedQueueSize`, the perceived values being the stored ones
perturbed by the random draws (so the cost is deterministic only given
the snapshot, the weights and the draws). -/
theorem claimC2_theorem (sourceId targetId : String) (nodes : List NodeRec)
    (edges : List EdgeRec) (w : Weights) (rng : Rng)
    (h : candidatePairs sourceId targetId nodes edges w rng ≠ []) :
    ∃ c, (c, adaptiveSearch sourceId targetId nodes edges w rng) ∈
        candidatePairs sourceId targetId nodes edges w rng ∧
      ∀ q ∈ candidatePairs sourceId targetId nodes edges w rng, c ≤ q.1 := by
  obtain ⟨c, p, heq, hmem, hall⟩ := foldl_minStep_min h
  have hp : adaptiveSearch sourceId targetId nodes edges w rng = p := by
    rw [adaptiveSearch_eq_fold, heq]
    rw [if_neg (fun hc => candidatePairs_path_ne_nil hmem hc.1)]
  rw [hp]
  exact ⟨c, hmem, hall⟩

/-- Witness for C2 on a two-node graph with a direct edge. -/
theorem claimC2_witness :
    ∃ c, (c, adaptiveSearch "S" "T" [healthyNode "S", healthyNode "T"]
        [mkEdge "S" "T" 7] balancedWeights rng0) ∈
        candidatePairs "S" "T" [healthyNode "S", healthyNode "T"]
          [mkEdge "S" "T" 7] balancedWeights rng0 ∧
      ∀ q ∈ candidatePairs "S" "T" [healthyNode "S", healthyNode "T"]
          [mkEdge "S" "T" 7] balancedWeights rng0, c ≤ q.1 :=
  claimC2_theorem "S" "T" [healthyNode "S", healthyNode "T"]
    [mkEdge "S" "T" 7] balancedWeights rng0 (by decide)

/-! ### Claim C8 -/

/-- C8: with weights `{alpha 1, beta 0, gamma 0}` the evaluated 2-hop
cost is exactly the summed latency, whatever the draws; in the P4
scenario (direct latency 5 against 2-hop summed latency 50 through a
healthy intermediate) the adaptive path is `[S, T]`; and in the E2E
scenario the adaptive invocation returns `[S, R1, T]` (summed latency
10 against 16) — each for every random source. -/
theorem claimC8_theorem :
    (∀ (rng : Rng) (n : NodeRec) (e1 e2 : EdgeRec),
      twoHopCost latencyOnlyWeights rng n e1 e2 = e1.latency + e2.latency) ∧
    (∀ rng : Rng,
      adaptiveSearch "S" "T" p4Nodes p4Edges latencyOnlyWeights rng = ["S", "T"]) ∧
    (∀ rng : Rng,
      (runSimulation e2eNodes e2eEdges
          ⟨.adaptive, "S", "T", latencyOnlyWeights⟩ rng).toOption.map
        (fun rs => rs.map (fun r => r.path)) = some [["S", "R1", "T"]]) := by
  refine ⟨?_, ?_, ?_⟩
  · intro rng n e1 e2
    rw [show latencyOnlyWeights = ⟨1, 0, 0⟩ from rfl, twoHopCost_alpha_only, one_mul]
  · intro rng
    rw [show latencyOnlyWeights = ⟨1, 0, 0⟩ from rfl]
    have hnl : ¬(((twoHopCost ⟨1, 0, 0⟩ rng (healthyNode "I")
        (mkEdge "S" "I" 25) (mkEdge "I" "T" 25), ["S", "I", "T"]) : ℚ × List String).1
        < 5 * 1) := by
      rw [show ((twoHopCost ⟨1, 0, 0⟩ rng (healthyNode "I")
          (mkEdge "S" "I" 25) (mkEdge "I" "T" 25), ["S", "I", "T"]) : ℚ × List String).1
        = twoHopCost ⟨1, 0, 0⟩ rng (healthyNode "I")
          (mkEdge "S" "I" 25) (mkEdge "I" "T" 25) from rfl, twoHopCost_alpha_only]
      norm_num [mkEdge]
    rw [adaptiveSearch_eq_fold,
      show candidatePairs "S" "T" p4Nodes p4Edges ⟨1, 0, 0⟩ rng =
        [(5 * 1, ["S", "T"]),
         (twoHopCost ⟨1, 0, 0⟩ rng (healthyNode "I")
           (mkEdge "S" "I" 25) (mkEdge "I" "T" 25), ["S", "I", "T"])] from rfl,
      List.foldl_cons, minStep_none, List.foldl_cons, minStep_some, List.foldl_nil,
      if_neg hnl]
    rw [if_neg (fun hc => (List.cons_ne_nil "S" ["T"]) hc.1)]
  · intro rng
    have hrun : runSimulation e2eNodes e2eEdges
        ⟨.adaptive, "S", "T", latencyOnlyWeights⟩ rng =
        .ok [runAlgo "S" "T" e2eNodes e2eEdges latencyOnlyWeights rng .adaptive] :=
      runSimulation_main (by decide) (by decide) (by decide) (by decide) (by decide)
        (fun _ => by
          rw [show weightsTotal latencyOnlyWeights - 1 = 0 from by
            rw [weightsTotal, latencyOnlyWeights]; norm_num]
          simp)
    rw [hrun]
    have hpath : (runAlgo "S" "T" e2eNodes e2eEdges latencyOnlyWeights rng .adaptive).path
        = ["S", "R1", "T"] := by
      show adaptiveSearch "S" "T" e2eNodes e2eEdges latencyOnlyWeights rng = _
      rw [show latencyOnlyWeights = ⟨1, 0, 0⟩ from rfl]
      have hnl : ¬(((twoHopCost ⟨1, 0, 0⟩ rng (healthyNode "R2")
          (mkEdge "S" "R2" 8) (mkEdge "R2" "T" 8), ["S", "R2", "T"]) : ℚ × List String).1
          < ((twoHopCost ⟨1, 0, 0⟩ rng (healthyNode "R1")
            (mkEdge "S" "R1" 5) (mkEdge "R1" "T" 5), ["S", "R1", "T"]) :
              ℚ × List String).1) := by
        rw [show ((twoHopCost ⟨1, 0, 0⟩ rng (healthyNode "R2")
            (mkEdge "S" "R2" 8) (mkEdge "R2" "T" 8), ["S", "R2", "T"]) :
              ℚ × List String).1
          = twoHopCost ⟨1, 0, 0⟩ rng (healthyNode "R2")
            (mkEdge "S" "R2" 8) (mkEdge "R2" "T" 8) from rfl,
          show ((twoHopCost ⟨1, 0, 0⟩ rng (healthyNode "R1")
            (mkEdge "S" "R1" 5) (mkEdge "R1" "T" 5), ["S", "R1", "T"]) :
              ℚ × List String).1
          = twoHopCost ⟨1, 0, 0⟩ rng (healthyNode "R1")
            (mkEdge "S" "R1" 5) (mkEdge "R1" "T" 5) from rfl,
          twoHopCost_alpha_only, twoHopCost_alpha_only]
        norm_num [mkEdge]
      rw [adaptiveSearch_eq_fold,
        show candidatePairs "S" "T" e2eNodes e2eEdges ⟨1, 0, 0⟩ rng =
          [(twoHopCost ⟨1, 0, 0⟩ rng (healthyNode "R1")
             (mkEdge "S" "R1" 5) (mkEdge "R1" "T" 5), ["S", "R1", "T"]),
           (twoHopCost ⟨1, 0, 0⟩ rng (healthyNode "R2")
             (mkEdge "S" "R2" 8) (mkEdge "R2" "T" 8), ["S", "R2", "T"])] from rfl,
        List.foldl_cons, minStep_none, List.foldl_cons, minStep_some, List.foldl_nil,
        if_neg hnl]
      rw [if_neg (fun hc => (List.cons_ne_nil "S" ["R1", "T"]) hc.1)]
    simp [Except.toOption, hpath]

/-! ### Claim C4 -/

lemma find?_first_of_split {α : Type} (p : α → Bool) (l l1 l2 : List α) (x : α)
    (hsplit : l = l1 ++ x :: l2) (hl1 : ∀ j ∈ l1, p j = false) (hx : p x = true) :
    l.find? p = some x := by
  rw [hsplit]
  exact find?_append_first p l1 x l2 hl1 hx

/-- C4: for a dijkstra or bellman-ford invocation with distinct,
existing, non-failed endpoints on a graph with unique node ids: a
direct edge yields `[source, target]`; otherwise the first node in
node-list order joined to both endpoints yields the 2-hop path;
otherwise the result is the BFS fallback — and on the 4-node chain the
returned path is `[S, A, B, T]`. -/
theorem claimC4_theorem (sourceId targetId : String) (nodes : List NodeRec)
    (edges : List EdgeRec) (w : Weights) (rng : Rng) (ns nt : NodeRec)
    (hnd : (nodes.map (fun n => n.id)).Nodup)
    (hfs : findNode nodes sourceId = some ns) (hsok : ns.isFailed = false)
    (hft : findNode nodes targetId = some nt) (htok : nt.isFailed = false)
    (hst : sourceId ≠ targetId) :
    ((∃ e ∈ edges, e.source = sourceId ∧ e.target = targetId) →
      nonAdaptiveSearch sourceId targetId nodes edges = [sourceId, targetId]) ∧
    (∀ (l1 l2 : List NodeRec) (iNode : NodeRec),
      ¬ (∃ e ∈ edges, e.source = sourceId ∧ e.target = targetId) →
      nodes = l1 ++ iNode :: l2 →
      twoHopProp sourceId targetId edges iNode →
      (∀ j ∈ l1, ¬ twoHopProp sourceId targetId edges j) →
      nonAdaptiveSearch sourceId targetId nodes edges = [sourceId, iNode.id, targetId]) ∧
    (¬ (∃ e ∈ edges, e.source = sourceId ∧ e.target = targetId) →
      (∀ j ∈ nodes, ¬ twoHopProp sourceId targetId edges j) →
      nonAdaptiveSearch sourceId targetId nodes edges =
        findPathBFS sourceId targetId nodes edges) ∧
    (∀ algo, algo = Algorithm.dijkstra ∨ algo = Algorithm.bellmanFord →
      (runAlgo sourceId targetId nodes edges w rng algo).path =
        nonAdaptiveSearch sourceId targetId nodes edges) ∧
    ((runSimulation chainNodes chainEdges ⟨.dijkstra, "S", "T", w⟩ rng).toOption.map
      (fun rs => rs.map (fun r => r.path)) = some [["S", "A", "B", "T"]]) := by
  have hsf : nodeLookupFailed nodes sourceId = false :=
    nodeLookupFailed_eq_false_of_find hfs hsok
  have htf : nodeLookupFailed nodes targetId = false :=
    nodeLookupFailed_eq_false_of_find hft htok
  refine ⟨?_, ?_, ?_, ?_, ?_⟩
  · intro hdir
    obtain ⟨e, he⟩ := find?_edgeOk_isSome hsf htf hdir
    simp only [nonAdaptiveSearch, he]
  · intro l1 l2 iNode hdir hsplit hP hl1
    have hnone := @find?_edgeOk_none nodes edges sourceId targetId hdir
    have hImem : iNode ∈ nodes := by
      rw [hsplit]
      exact List.mem_append_right _ (List.mem_cons_self _ _)
    have hfirst : (intermediateCandidates sourceId targetId nodes).find?
        (twoHopExists sourceId targetId nodes edges) = some iNode := by
      rw [intermediateCandidates, find?_filter]
      refine find?_first_of_split _ nodes l1 l2 iNode hsplit ?_ ?_
      · intro j hj
        have hjmem : j ∈ nodes := by
          rw [hsplit]
          exact List.mem_append_left _ hj
        by_contra hpj
        rw [Bool.not_eq_false] at hpj
        exact hl1 j hj ((twoHopProp_bool hnd hsf htf hjmem).mp hpj)
      · exact (twoHopProp_bool hnd hsf htf hImem).mpr hP
    simp only [nonAdaptiveSearch, hnone, hfirst]
  · intro hdir hnone2
    have hnone := @find?_edgeOk_none nodes edges sourceId targetId hdir
    have hfind2 : (intermediateCandidates sourceId targetId nodes).find?
        (twoHopExists sourceId targetId nodes edges) = none := by
      refine List.find?_eq_none.mpr (fun i hi hex => ?_)
      obtain ⟨himem, hipred⟩ := List.mem_filter.mp hi
      simp only [Bool.and_eq_true, bne_iff_ne, Bool.not_eq_true'] at hipred
      obtain ⟨⟨h1, h2⟩, h3⟩ := hipred
      obtain ⟨ha, hb⟩ := (twoHopExists_iff hnd hsf htf himem h3).mp hex
      exact hnone2 i himem ⟨h1, h2, h3, ha, hb⟩
    simp only [nonAdaptiveSearch, hnone, hfind2]
    rw [if_pos hst]
  · intro algo halgo
    rcases halgo with rfl | rfl <;> rfl
  · have hrun : runSimulation chainNodes chainEdges ⟨.dijkstra, "S", "T", w⟩ rng =
        .ok [runAlgo "S" "T" chainNodes chainEdges w rng .dijkstra] :=
      @runSimulation_main chainNodes chainEdges ⟨.dijkstra, "S", "T", w⟩ rng
        (show ("S" : String) ≠ "" by decide) (show ("T" : String) ≠ "" by decide)
        (show nodeLookupFailed chainNodes "S" = false by decide)
        (show nodeLookupFailed chainNodes "T" = false by decide)
        (show ("S" : String) ≠ "T" by decide)
        (fun hc => absurd hc (show ¬(Algorithm.dijkstra = Algorithm.adaptive ∨
          Algorithm.dijkstra = Algorithm.compare) by decide))
    rw [hrun]
    have hpath : (runAlgo "S" "T" chainNodes chainEdges w rng .dijkstra).path
        = ["S", "A", "B", "T"] := by
      show nonAdaptiveSearch "S" "T" chainNodes chainEdges = _
      decide
    simp [Except.toOption, hpath]

/-- Witness for C4 on the 4-node chain with distinct, non-failed
endpoints and unique node ids. -/
theorem claimC4_witness :
    ((∃ e ∈ chainEdges, e.source = "S" ∧ e.target = "T") →
      nonAdaptiveSearch "S" "T" chainNodes chainEdges = ["S", "T"]) ∧
    (∀ (l1 l2 : List NodeRec) (iNode : NodeRec),
      ¬ (∃ e ∈ chainEdges, e.source = "S" ∧ e.target = "T") →
      chainNodes = l1 ++ iNode :: l2 →
      twoHopProp "S" "T" chainEdges iNode →
      (∀ j ∈ l1, ¬ twoHopProp "S" "T" chainEdges j) →
      nonAdaptiveSearch "S" "T" chainNodes chainEdges = ["S", iNode.id, "T"]) ∧
    (¬ (∃ e ∈ chainEdges, e.source = "S" ∧ e.target = "T") →
      (∀ j ∈ chainNodes, ¬ twoHopProp "S" "T" chainEdges j) →
      nonAdaptiveSearch "S" "T" chainNodes chainEdges =
        findPathBFS "S" "T" chainNodes chainEdges) ∧
    (∀ algo, algo = Algorithm.dijkstra ∨ algo = Algorithm.bellmanFord →
      (runAlgo "S" "T" chainNodes chainEdges balancedWeights rng0 algo).path =
        nonAdaptiveSearch "S" "T" chainNodes chainEdges) ∧
    ((runSimulation chainNodes chainEdges
        ⟨.dijkstra, "S", "T", balancedWeights⟩ rng0).toOption.map
      (fun rs => rs.map (fun r => r.path)) = some [["S", "A", "B", "T"]]) :=
  claimC4_theorem "S" "T" chainNodes chainEdges balancedWeights rng0
    (healthyNode "S") (healthyNode "T")
    (by decide) (by decide) (by decide) (by decide) (by decide) (by decide)

end NetworkNavigator
